import Mathlib

/-!
Verification of the rafoz tabular data engine.

This file shallowly embeds the core data model and operations of the
repository (src/src/App.tsx, src/src/utils/csv.ts, src/src/utils/formatting.ts,
src/src/types.ts) into Lean and proves properties of them.

JavaScript strings are modelled as lists of characters (`Str`), objects
(`Record<string, string>`) as ordered association lists (`Values`) with
JavaScript assignment/`delete` semantics, and JSON documents as the inductive
type `JsonVal`.  Timestamps (`Date.now()`) are passed explicitly as a `now`
parameter.
-/

namespace Rafoz

/-- Strings are modelled as lists of characters. -/
abbrev Str := List Char

/-- Embed a Lean string literal as a character list. -/
def str (s : String) : Str := s.data

/-- Model of JavaScript `String.prototype.trim`: drop whitespace from both ends. -/
def jsTrim (s : Str) : Str :=
  ((s.dropWhile Char.isWhitespace).reverse.dropWhile Char.isWhitespace).reverse

/-- Model of `toLowerCase`. -/
def toLowerStr (s : Str) : Str := s.map Char.toLower

/-- From src/src/utils/formatting.ts: `normalizeLabel = label => label.trim().toLowerCase()`. -/
def normalizeLabel (label : Str) : Str := toLowerStr (jsTrim label)

/-- Model of JavaScript `s.split(sep)` for a single-character separator. -/
def splitOnChar (sep : Char) : Str → List Str
  | [] => [[]]
  | c :: cs =>
    if c = sep then [] :: splitOnChar sep cs
    else
      match splitOnChar sep cs with
      | [] => [[c]]
      | r :: rs => (c :: r) :: rs

/-- Decimal digits of a natural number (auxiliary, fuel-driven). -/
def natToStrAux : Nat → Nat → Str → Str
  | 0, _, acc => acc
  | fuel + 1, n, acc =>
    let d := Char.ofNat (48 + n % 10)
    if n < 10 then d :: acc else natToStrAux fuel (n / 10) (d :: acc)

/-- Decimal representation of a natural number, as in JavaScript `String(n)`. -/
def natToStr (n : Nat) : Str := natToStrAux (n + 1) n []

/-- Decimal representation of an integer, as in JavaScript `String(n)`. -/
def intToStr (i : Int) : Str :=
  if i < 0 then '-' :: natToStr i.natAbs else natToStr i.toNat

/-- Model of JavaScript `Number.parseInt(s, 10)`: skip leading whitespace,
optional sign, then a maximal run of decimal digits; `none` models `NaN`. -/
def parseIntJS (s : Str) : Option Int :=
  let s1 := s.dropWhile Char.isWhitespace
  let signAndRest : Bool × Str :=
    match s1 with
    | '-' :: t => (true, t)
    | '+' :: t => (false, t)
    | t => (false, t)
  let ds := signAndRest.2.takeWhile Char.isDigit
  if ds.isEmpty then none
  else
    let n : Nat := ds.foldl (fun a c => a * 10 + (c.toNat - 48)) 0
    some (if signAndRest.1 then -(n : Int) else (n : Int))

/-! ## Objects as ordered association lists -/

/-- A JavaScript `Record<string, string>`: keys in insertion order. -/
abbrev Values := List (Str × Str)

/-- Model of `obj[k] || ''` / `obj[k] ?? ''`: value of the key, empty when absent. -/
def lookupVal (vs : Values) (k : Str) : Str :=
  match vs.find? (fun p => decide (p.1 = k)) with
  | some p => p.2
  | none => []

/-- Model of `obj[k] = v`: update the existing key in place, else append. -/
def setVal (vs : Values) (k v : Str) : Values :=
  if vs.any (fun p => decide (p.1 = k)) then
    vs.map (fun p => if p.1 = k then (p.1, v) else p)
  else vs ++ [(k, v)]

/-- Model of `delete obj[k]`. -/
def delVal (vs : Values) (k : Str) : Values := vs.filter (fun p => decide (p.1 ≠ k))

/-- The key list of a record. -/
def keysOf (vs : Values) : List Str := vs.map Prod.fst

/-! ## Tabular encoding (src/src/utils/csv.ts) -/

/-- The character scanner of `parseCSV`: quote-toggle state, cell and row
accumulators, input text.  A doubled quote inside quotes emits a literal quote;
an unquoted quote toggles the state; `,` and `\n` outside quotes end the cell
(and row); `\r` is always dropped; anything else is appended to the cell. -/
def parseCSVAux : Bool → Str → List Str → List (List Str) → Str → List (List Str)
  | _, cell, row, rows, [] => rows ++ [row ++ [cell]]
  | true, cell, row, rows, '"' :: '"' :: rest => parseCSVAux true (cell ++ ['"']) row rows rest
  | true, cell, row, rows, '"' :: rest => parseCSVAux false cell row rows rest
  | false, cell, row, rows, '"' :: rest => parseCSVAux true cell row rows rest
  | inq, cell, row, rows, c :: rest =>
    if c = ',' ∧ inq = false then parseCSVAux inq [] (row ++ [cell]) rows rest
    else if c = '\n' ∧ inq = false then parseCSVAux inq [] [] (rows ++ [row ++ [cell]]) rest
    else if c = '\r' then parseCSVAux inq cell row rows rest
    else parseCSVAux inq (cell ++ [c]) row rows rest

/-- Model of `c.trim() !== ''`: the cell has a non-whitespace character. -/
def cellNonBlank (c : Str) : Bool := c.any (fun ch => !ch.isWhitespace)

/-- From src/src/utils/csv.ts: scan the text, flush the last cell and row, and
drop rows where every cell is blank after trimming. -/
def parseCSV (text : Str) : List (List Str) :=
  (parseCSVAux false [] [] [] text).filter (fun r => r.any cellNonBlank)

/-- A cell is quote-wrapped iff it contains `"`, `,` or `\n` (regex `[",\n]`). -/
def needsQuote (v : Str) : Bool :=
  v.any (fun c => decide (c = '"' ∨ c = ',' ∨ c = '\n'))

/-- Double every quote of a cell (`v.replace(/"/g, '""')`). -/
def doubleQuotes (v : Str) : Str :=
  v.flatMap (fun c => if c = '"' then ['"', '"'] else [c])

/-- From src/src/utils/csv.ts: `escapeCell`. -/
def escapeCell (v : Str) : Str :=
  if needsQuote v then '"' :: doubleQuotes v ++ ['"'] else v

/-- One encoded row: escaped cells joined with `,`. -/
def encodeRow (r : List Str) : Str := List.intercalate [','] (r.map escapeCell)

/-- From src/src/utils/csv.ts: cells joined with `,`, rows joined with `\n`. -/
def stringifyCSV (rows : List (List Str)) : Str :=
  List.intercalate ['\n'] (rows.map encodeRow)

/-! ## Data model (src/src/types.ts) -/

/-- A table column. -/
structure Column where
  id : Str
  label : Str
deriving DecidableEq, Repr

/-- A table row: `values` maps column ids to cell strings. -/
structure DynamicRow where
  id : Str
  values : Values
  updatedAt : Nat
  comment : Option Str := none
deriving DecidableEq, Repr

/-- The two table modes. -/
inductive TableType where
  | classic
  | pairwise
deriving DecidableEq, Repr

/-- A table. -/
structure ProjectTable where
  id : Str
  name : Str
  type : TableType
  columns : List Column
  rows : List DynamicRow
  autoIdEnabled : Bool := false
  autoIdColumnId : Option Str := none
  createdAt : Nat
  updatedAt : Nat
deriving DecidableEq, Repr

/-- A folder owning tables. -/
structure Folder where
  id : Str
  name : Str
  description : Str
  tables : List ProjectTable
  createdAt : Nat
  updatedAt : Nat
deriving DecidableEq, Repr

/-- A transient include/exclude filter on one (column, value) pair. -/
inductive FilterMode where
  | inc
  | exc
deriving DecidableEq, Repr

/-- An active filter. -/
structure ActiveFilter where
  columnId : Str
  value : Str
  mode : FilterMode
deriving DecidableEq, Repr

/-! ## Mutation boundary (src/src/App.tsx, `updateActiveTable`) -/

/-- From App.tsx: `folders.find(f => f.id === activeFolderId)`. -/
def findActiveFolder (folders : List Folder) (activeFolderId : Option Str) : Option Folder :=
  folders.find? (fun f => decide (some f.id = activeFolderId))

/-- From App.tsx: `activeFolder?.tables.find(t => t.id === activeTableId)`. -/
def findActiveTable (folders : List Folder) (activeFolderId activeTableId : Option Str) :
    Option ProjectTable :=
  match findActiveFolder folders activeFolderId with
  | none => none
  | some f => f.tables.find? (fun t => decide (some t.id = activeTableId))

/-- From App.tsx: the single mutation choke point.  The folder whose id matches
`activeFolderId` has the matching table replaced by the updated one (stamped
with a fresh `updatedAt`) and its own `updatedAt` stamped; everything else is
returned unchanged. -/
def updateActiveTable (activeFolderId activeTableId : Option Str) (now : Nat)
    (updater : ProjectTable → ProjectTable) (folders : List Folder) : List Folder :=
  folders.map (fun f =>
    if some f.id = activeFolderId then
      { f with
        tables := f.tables.map (fun t =>
          if some t.id = activeTableId then { updater t with updatedAt := now } else t),
        updatedAt := now }
    else f)

/-! ## Column deletion (App.tsx, `handleDeleteColumn`) -/

/-- The transform passed to `updateActiveTable` by `handleDeleteColumn`:
drop the column, disable auto-id if it pointed at the column, and delete the
column's key from every row's values. -/
def deleteColumnUpdater (colId : Str) (t : ProjectTable) : ProjectTable :=
  { t with
    autoIdEnabled := if t.autoIdColumnId = some colId then false else t.autoIdEnabled,
    autoIdColumnId := if t.autoIdColumnId = some colId then none else t.autoIdColumnId,
    columns := t.columns.filter (fun c => decide (c.id ≠ colId)),
    rows := t.rows.map (fun r => { r with values := delVal r.values colId }) }

/-- From App.tsx: `handleDeleteColumn`.  Guard: deleting the designated auto-id
column is refused (`if (activeTable?.autoIdColumnId === colId) return`). -/
def handleDeleteColumn (folders : List Folder) (activeFolderId activeTableId : Option Str)
    (now : Nat) (colId : Str) : List Folder :=
  if (findActiveTable folders activeFolderId activeTableId).bind ProjectTable.autoIdColumnId
      = some colId then folders
  else updateActiveTable activeFolderId activeTableId now (deleteColumnUpdater colId) folders

/-! ## Row generation (App.tsx, `handleAddRow`) -/

/-- The effective identifier column: `autoIdColumnId` when `autoIdEnabled` and
the referenced column exists in the table (`idColumnId` + `hasIdColumn`). -/
def effIdCol (t : ProjectTable) : Option Str :=
  match (if t.autoIdEnabled then t.autoIdColumnId else none) with
  | some cid => if t.columns.any (fun c => decide (c.id = cid)) then some cid else none
  | none => none

/-- From App.tsx: scan all rows' identifier cells with `parseInt`, skip `NaN`,
keep a running maximum starting at 0, and add one. -/
def nextIdStart (t : ProjectTable) (idColumnId : Str) : Int :=
  (t.rows.foldl (fun mx r =>
    match parseIntJS (lookupVal r.values idColumnId) with
    | none => mx
    | some num => if num > mx then num else mx) 0) + 1

/-- Classic mode split: `val.split('/').map(p => p.trim())` (not filtered). -/
def splitSlash (s : Str) : List Str := (splitOnChar '/' s).map jsTrim

/-- The values record of classic-generated row `i`:
`rowValues[col.id] = colValuesMap[col.id][i] || ''`, then the identifier
column (when effective) is overwritten with the assigned number. -/
def classicRowValues (t : ProjectTable) (inputs : Values) (nextId : Int) (i : Nat) : Values :=
  let base := t.columns.foldl
    (fun vs c => setVal vs c.id ((splitSlash (lookupVal inputs c.id)).getD i [])) []
  match effIdCol t with
  | some cid => setVal base cid (intToStr (nextId + i))
  | none => base

/-- The number of classic-generated rows: the running maximum of the
per-column part counts, starting from 0. -/
def classicMaxRows (t : ProjectTable) (inputs : Values) : Nat :=
  t.columns.foldl (fun mx c => max mx (splitSlash (lookupVal inputs c.id)).length) 0

/-- The identifier for the next generated block: `nextIdStart` when the table
has an effective identifier column, 1 otherwise. -/
def generationNextId (t : ProjectTable) : Int :=
  match effIdCol t with
  | some cid => nextIdStart t cid
  | none => 1

/-- The rows produced by one classic-mode generation. -/
def classicNewRows (t : ProjectTable) (inputs : Values) (now : Nat) : List DynamicRow :=
  (List.range (classicMaxRows t inputs)).map (fun i =>
    ({ id := str "row_" ++ natToStr now ++ str "_" ++ natToStr i,
       values := classicRowValues t inputs (generationNextId t) i,
       updatedAt := now } : DynamicRow))

/-- From App.tsx: the classic branch of `handleAddRow`.  One row per index up
to the maximum part count; new rows are prepended to the existing rows. -/
def classicGenerate (t : ProjectTable) (inputs : Values) (now : Nat) : ProjectTable :=
  { t with rows := classicNewRows t inputs now ++ t.rows }

/-- Pairwise mode options: split on `/`, trim, drop empty parts; an empty
result defaults to the single empty string. -/
def pairwiseOptions (s : Str) : List Str :=
  let parts := ((splitOnChar '/' s).map jsTrim).filter (fun p => decide (p ≠ []))
  if parts.length > 0 then parts else [[]]

/-- From App.tsx: the recursive `generate` of the pairwise branch.  Stops
contributing combinations once 2000 have been accumulated. -/
def genAux : List (Str × List Str) → Values → List Values → List Values
  | opts, current, acc =>
    if acc.length ≥ 2000 then acc
    else match opts with
      | [] => acc ++ [current]
      | (k, vs) :: rest => vs.foldl (fun a v => genAux rest (setVal current k v) a) acc

/-- The pairwise combination list of a table for given per-column inputs. -/
def pairwiseCombos (t : ProjectTable) (inputs : Values) : List Values :=
  genAux (t.columns.map (fun c => (c.id, pairwiseOptions (lookupVal inputs c.id)))) [] []

/-- The rows produced by one pairwise-mode generation. -/
def pairwiseNewRows (t : ProjectTable) (inputs : Values) (now : Nat) : List DynamicRow :=
  (pairwiseCombos t inputs).enum.map (fun p =>
    ({ id := str "row_" ++ natToStr now ++ str "_" ++ natToStr p.1,
       values := match effIdCol t with
         | some cid => setVal p.2 cid (intToStr (generationNextId t + p.1))
         | none => p.2,
       updatedAt := now } : DynamicRow))

/-- From App.tsx: the pairwise branch of `handleAddRow`. -/
def pairwiseGenerate (t : ProjectTable) (inputs : Values) (now : Nat) : ProjectTable :=
  { t with rows := pairwiseNewRows t inputs now ++ t.rows }

/-- From App.tsx: `handleAddRow` dispatches on the table type. -/
def handleAddRow (t : ProjectTable) (inputs : Values) (now : Nat) : ProjectTable :=
  if t.type = TableType.classic then classicGenerate t inputs now
  else pairwiseGenerate t inputs now

/-! ## JSON import (App.tsx, `handlePasteJSON` / `handleImportJSON`) -/

/-- A parsed JSON document. -/
inductive JsonVal where
  | jnull : JsonVal
  | jstr : Str → JsonVal
  | jnum : Int → JsonVal
  | jbool : Bool → JsonVal
  | jarr : List JsonVal → JsonVal
  | jobj : List (Str × JsonVal) → JsonVal

/-- Field lookup on a JSON object. -/
def objGet (fields : List (Str × JsonVal)) (k : Str) : Option JsonVal :=
  (fields.find? (fun p => decide (p.1 = k))).map Prod.snd

/-- JavaScript truthiness of a JSON value. -/
def jsTruthy : JsonVal → Bool
  | .jnull => false
  | .jstr s => decide (s ≠ [])
  | .jnum n => decide (n ≠ 0)
  | .jbool b => b
  | .jarr _ => true
  | .jobj _ => true

/-- `Array.isArray`. -/
def isJArr : JsonVal → Bool
  | .jarr _ => true
  | _ => false

/-- `Object.keys`: field names of an object, index strings of an array. -/
def jsKeys : JsonVal → List Str
  | .jobj fs => fs.map Prod.fst
  | .jarr xs => (List.range xs.length).map natToStr
  | _ => []

/-- Property access `obj[key]` for objects and (index-keyed) arrays. -/
def jsGetKey : JsonVal → Str → Option JsonVal
  | .jobj fs, k => objGet fs k
  | .jarr xs, k =>
    match parseIntJS k with
    | some n => if 0 ≤ n then xs.get? n.toNat else none
    | none => none
  | _, _ => none

mutual

/-- Model of JavaScript `String(v)` on JSON values (arrays join with commas,
`null` elements of an array join as empty). -/
def jsonToString : JsonVal → Str
  | .jnull => str "null"
  | .jstr s => s
  | .jnum n => intToStr n
  | .jbool b => cond b (str "true") (str "false")
  | .jobj _ => str "[object Object]"
  | .jarr xs => jsonArrToString xs

/-- Joining the elements of an array for `String(arr)`. -/
def jsonArrToString : List JsonVal → Str
  | [] => []
  | [.jnull] => []
  | [x] => jsonToString x
  | .jnull :: xs => ',' :: jsonArrToString xs
  | x :: xs => jsonToString x ++ ',' :: jsonArrToString xs

end

/-- `val !== null && val !== undefined ? String(val) : ''` for a property that
may be absent. -/
def stringifyProp : Option JsonVal → Str
  | some .jnull => []
  | some v => jsonToString v
  | none => []

/-- `Object.entries` (objects, arrays, strings; primitives have none). -/
def jsEntries : JsonVal → List (Str × JsonVal)
  | .jobj fs => fs
  | .jarr xs => xs.enum.map (fun p => (natToStr p.1, p.2))
  | .jstr s => s.enum.map (fun p => (natToStr p.1, .jstr [p.2]))
  | _ => []

/-- The normalized data array of the generic import shape: `parsed.data` when
it is an array, the top-level array itself, a singleton for any other object,
and empty (failure) otherwise. -/
def normalizeDataArray : JsonVal → List JsonVal
  | .jobj fs =>
    match objGet fs (str "data") with
    | some (.jarr l) => l
    | _ => [.jobj fs]
  | .jarr l => l
  | _ => []

/-- All unique keys across the data array, in first-appearance order. -/
def collectKeys (dataArray : List JsonVal) : List Str :=
  dataArray.foldl (fun acc row =>
    (jsKeys row).foldl (fun a k => if a.any (fun x => decide (x = k)) then a else a ++ [k]) acc) []

/-- `{ ...obj, [k]: v }` for an existing key `k` (keeps insertion order). -/
def objSet (fields : List (Str × JsonVal)) (k : Str) (v : JsonVal) : List (Str × JsonVal) :=
  fields.map (fun p => if p.1 = k then (p.1, v) else p)

/-- Row expansion of the generic import: the first array-valued field (in key
order) produces one output row per element, that field replaced by the
element; otherwise the object is a single row.  Array sources spread into
index-keyed objects, as `{ ...obj }` does. -/
def expandRow (obj : JsonVal) : List JsonVal :=
  match obj with
  | .jobj fs =>
    match fs.find? (fun p => isJArr p.2) with
    | some (k, JsonVal.jarr elems) => elems.map (fun e => JsonVal.jobj (objSet fs k e))
    | _ => [obj]
  | .jarr xs =>
    let fs := xs.enum.map (fun p => (natToStr p.1, p.2))
    match fs.find? (fun p => isJArr p.2) with
    | some (k, JsonVal.jarr elems) => elems.map (fun e => JsonVal.jobj (objSet fs k e))
    | _ => [obj]
  | _ => [obj]

/-- The values record of one generic-import row: for every new column, look the
column's label up among the collected keys and stringify the object's value at
that key (`''` for `null`/absent). -/
def genericRowValues (colKeys : List Str) (newColumns : List Column) (obj : JsonVal) : Values :=
  newColumns.foldl (fun vs col =>
    let keyIndex := colKeys.findIdx (fun k => decide (k = col.label))
    setVal vs col.id (stringifyProp (jsGetKey obj (colKeys.getD keyIndex [])))) []

/-- The merge transform of the generic import path: columns whose normalized
label is already present are not added; rows are appended after existing rows. -/
def genericMergeUpdater (newColumns : List Column) (newRows : List DynamicRow)
    (t : ProjectTable) : ProjectTable :=
  let existingLabels := t.columns.map (fun c => normalizeLabel c.label)
  let columnsToAdd := newColumns.filter
    (fun col => !existingLabels.any (fun l => decide (l = normalizeLabel col.label)))
  { t with columns := t.columns ++ columnsToAdd, rows := t.rows ++ newRows }

/-- The merge transform of the native import path: columns whose exact id is
already present are not added; rows are appended after existing rows. -/
def nativeMergeUpdater (columnsFromFile : List Column) (newRows : List DynamicRow)
    (t : ProjectTable) : ProjectTable :=
  let existingIds := t.columns.map Column.id
  let columnsToAdd := columnsFromFile.filter
    (fun col => !existingIds.any (fun i => decide (i = col.id)))
  { t with columns := t.columns ++ columnsToAdd, rows := t.rows ++ newRows }

/-- Columns of a native-shape file: entries with string `id` and `label`. -/
def nativeColumns (cs : List JsonVal) : List Column :=
  cs.filterMap (fun c =>
    match c with
    | .jobj cfs =>
      match objGet cfs (str "id"), objGet cfs (str "label") with
      | some (.jstr i), some (.jstr l) => some { id := i, label := l }
      | _, _ => none
    | _ => none)

/-- One imported native-shape row: values copied key-for-key as strings, the
identifier column overwritten when auto-id is effective. -/
def nativeRow (effId : Option Str) (nextId : Int) (now : Nat) (rowIdx : Nat)
    (row : JsonVal) : DynamicRow :=
  let rowValues := match row with
    | .jobj rfs => (objGet rfs (str "values")).getD .jnull
    | _ => .jnull
  let values0 := (jsEntries rowValues).foldl
    (fun vs kv => setVal vs kv.1 (stringifyProp (some kv.2))) []
  let values := match effId with
    | some cid => setVal values0 cid (intToStr (nextId + rowIdx))
    | none => values0
  let updA := match row with
    | .jobj rfs =>
      match objGet rfs (str "updatedAt") with
      | some (.jnum n) => n.toNat
      | _ => now
    | _ => now
  let comm := match row with
    | .jobj rfs =>
      match objGet rfs (str "comment") with
      | some (.jstr s) => some s
      | _ => none
    | _ => none
  { id := str "row_" ++ natToStr now ++ str "_" ++ natToStr rowIdx,
    values := values, updatedAt := updA, comment := comm }

/-- From App.tsx: the body of `handlePasteJSON` / `handleImportJSON` after
`JSON.parse`, acting on the active table.  `none` models the import-failure
alerts (the table is left unchanged); `some` is the merged table. -/
def handlePasteJSON (t : ProjectTable) (parsed : JsonVal) (now : Nat) : Option ProjectTable :=
  let effId := effIdCol t
  let nextId := match effId with
    | some cid => nextIdStart t cid
    | none => 1
  let nativeArrays : Option (List JsonVal × List JsonVal) :=
    match parsed with
    | .jobj fs =>
      match objGet fs (str "columns"), objGet fs (str "rows") with
      | some (.jarr cs), some (.jarr rs) => some (cs, rs)
      | _, _ => none
    | _ => none
  match nativeArrays with
  | some (cs, rs) =>
    let columnsFromFile := nativeColumns cs
    if columnsFromFile.isEmpty then none
    else
      let rowsFromFile := rs.filter (fun r =>
        match r with
        | .jobj rfs =>
          match objGet rfs (str "values") with
          | some v => jsTruthy v
          | none => false
        | _ => false)
      let newRows := rowsFromFile.enum.map (fun p => nativeRow effId nextId now p.1 p.2)
      some (nativeMergeUpdater columnsFromFile newRows t)
  | none =>
    let dataArray := normalizeDataArray parsed
    if dataArray.isEmpty then none
    else
      let colKeys := collectKeys dataArray
      if colKeys.isEmpty then none
      else
        let newColumns := colKeys.enum.map (fun p =>
          ({ id := str "col_" ++ natToStr now ++ str "_" ++ natToStr p.1,
             label := p.2 } : Column))
        let expandedRows := dataArray.flatMap expandRow
        let newRows := expandedRows.enum.map (fun p =>
          let values0 := genericRowValues colKeys newColumns p.2
          ({ id := str "row_" ++ natToStr now ++ str "_" ++ natToStr p.1,
             values := match effId with
               | some cid => setVal values0 cid (intToStr (nextId + p.1))
               | none => values0,
             updatedAt := now } : DynamicRow))
        some (genericMergeUpdater newColumns newRows t)

/-! ## Column statistics (App.tsx `columnValueStats`, hooks `useColumnStats`) -/

/-- `counts[val] = (counts[val] || 0) + 1` on an ordered counter. -/
def incrCount (counts : List (Str × Nat)) (key : Str) : List (Str × Nat) :=
  if counts.any (fun p => decide (p.1 = key)) then
    counts.map (fun p => if p.1 = key then (p.1, p.2 + 1) else p)
  else counts ++ [(key, 1)]

/-- Per-column statistics: a frequency counter over distinct non-empty values
of the column across all rows, and the count of empty/absent cells. -/
def columnValueStats (t : ProjectTable) (cid : Str) : List (Str × Nat) × Nat :=
  t.rows.foldl (fun st r =>
    let val := lookupVal r.values cid
    if val = [] then (st.1, st.2 + 1) else (incrCount st.1 val, st.2)) ([], 0)

/-! ## Filter toggling (App.tsx, `toggleFilter`) -/

/-- The match predicate on one (column, value) pair. -/
def filterMatches (cid v : Str) (f : ActiveFilter) : Bool :=
  decide (f.columnId = cid) && decide (f.value = v)

/-- From App.tsx: toggling a pair appends an include filter when absent, turns
an include filter into exclude, and removes an exclude filter. -/
def toggleFilter (filters : List ActiveFilter) (cid v : Str) : List ActiveFilter :=
  match filters.find? (filterMatches cid v) with
  | none => filters ++ [{ columnId := cid, value := v, mode := FilterMode.inc }]
  | some ex =>
    if ex.mode = FilterMode.inc then
      filters.map (fun f => if filterMatches cid v f then { f with mode := FilterMode.exc } else f)
    else filters.filter (fun f => !filterMatches cid v f)

/-- The state of a (column, value) pair in a filter list. -/
def filterState (filters : List ActiveFilter) (cid v : Str) : Option FilterMode :=
  (filters.find? (filterMatches cid v)).map ActiveFilter.mode

/-! ## Association-list lemmas -/

/-- Auxiliary: `find?` over the in-place update map of `setVal`, same key. -/
theorem find?_update_self (qs : Values) (k v : Str)
    (h : qs.any (fun p => decide (p.1 = k)) = true) :
    (qs.map (fun p => if p.1 = k then (p.1, v) else p)).find? (fun p => decide (p.1 = k))
      = some (k, v) := by
  induction qs with
  | nil => simp at h
  | cons q qs ih =>
    by_cases hq : q.1 = k
    · rw [List.map_cons, if_pos hq, List.find?_cons_of_pos _ (by simpa using hq)]
      rw [hq]
    · rw [List.map_cons, if_neg hq, List.find?_cons_of_neg _ (by simpa using hq)]
      exact ih (by simpa [hq] using h)

/-- Auxiliary: `find?` over the in-place update map of `setVal`, other key. -/
theorem find?_update_ne (qs : Values) (k v k2 : Str) (h : k2 ≠ k) :
    (qs.map (fun p => if p.1 = k then (p.1, v) else p)).find? (fun p => decide (p.1 = k2))
      = qs.find? (fun p => decide (p.1 = k2)) := by
  induction qs with
  | nil => rfl
  | cons q qs ih =>
    by_cases hq : q.1 = k2
    · have hqk : q.1 ≠ k := by rw [hq]; exact h
      rw [List.map_cons, if_neg hqk, List.find?_cons_of_pos _ (by simpa using hq),
        List.find?_cons_of_pos _ (by simpa using hq)]
    · by_cases hqk : q.1 = k
      · rw [List.map_cons, if_pos hqk, List.find?_cons_of_neg _ (by simp; rw [hqk]; exact Ne.symm h),
          List.find?_cons_of_neg _ (by simpa using hq)]
        exact ih
      · rw [List.map_cons, if_neg hqk, List.find?_cons_of_neg _ (by simpa using hq),
          List.find?_cons_of_neg _ (by simpa using hq)]
        exact ih

/-- Looking a key up right after setting it yields the written value. -/
theorem find?_setVal_self (vs : Values) (k v : Str) :
    (setVal vs k v).find? (fun p => decide (p.1 = k)) = some (k, v) := by
  unfold setVal
  by_cases h : vs.any (fun p => decide (p.1 = k)) = true
  · rw [if_pos h]
    exact find?_update_self vs k v h
  · rw [if_neg h, List.find?_append]
    have hn : vs.find? (fun p => decide (p.1 = k)) = none := by
      rw [List.find?_eq_none]
      intro x hx hxk
      exact h (by simp only [List.any_eq_true]; exact ⟨x, hx, hxk⟩)
    rw [hn]
    simp [List.find?]

/-- `setVal` then `lookupVal` at the same key. -/
theorem lookupVal_setVal_self (vs : Values) (k v : Str) :
    lookupVal (setVal vs k v) k = v := by
  unfold lookupVal
  rw [find?_setVal_self]

/-- `setVal` leaves lookups at other keys untouched. -/
theorem lookupVal_setVal_ne (vs : Values) (k v k2 : Str) (h : k2 ≠ k) :
    lookupVal (setVal vs k v) k2 = lookupVal vs k2 := by
  unfold setVal lookupVal
  by_cases ha : vs.any (fun p => decide (p.1 = k)) = true
  · rw [if_pos ha, find?_update_ne vs k v k2 h]
  · rw [if_neg ha, List.find?_append]
    have : List.find? (fun p => decide (p.1 = k2)) [(k, v)] = none := by
      simp [List.find?, Ne.symm h]
    rw [this]
    cases vs.find? (fun p => decide (p.1 = k2)) <;> rfl

/-- After `delVal`, the deleted key is gone from the key set. -/
theorem keysOf_delVal (vs : Values) (k : Str) : k ∉ keysOf (delVal vs k) := by
  simp only [keysOf, delVal, List.mem_map, List.mem_filter]
  rintro ⟨p, ⟨_, hp⟩, hk⟩
  simp only [decide_eq_true_eq] at hp
  exact hp hk

/-- Looking up any key of a record built by a `setVal` fold over the columns:
the fold writes `g c.id` for every column, so any present column id reads back
its written value and absent keys fall through to the initial record. -/
theorem lookupVal_foldl_setVal (cols : List Column) (g : Str → Str) (init : Values) (k : Str) :
    lookupVal (cols.foldl (fun vs c => setVal vs c.id (g c.id)) init) k
      = if cols.any (fun c => decide (c.id = k)) then g k else lookupVal init k := by
  induction cols generalizing init with
  | nil => simp
  | cons c cs ih =>
    simp only [List.foldl_cons, List.any_cons, Bool.or_eq_true, decide_eq_true_eq]
    rw [ih]
    by_cases h : c.id = k
    · subst h
      by_cases hcs : cs.any (fun c2 => decide (c2.id = c.id)) = true
      · simp [hcs]
      · simp [hcs, lookupVal_setVal_self]
    · by_cases hcs : cs.any (fun c2 => decide (c2.id = k)) = true
      · simp [hcs, h]
      · simp [hcs, h, lookupVal_setVal_ne _ _ _ _ (fun hh => h hh.symm)]

/-! ## Demonstration entities used by witnesses and counterexamples -/

/-- A table with an enabled auto-id column and identifier cells 3, 7, "bad". -/
def demoAutoTable : ProjectTable :=
  { id := str "t1", name := str "T", type := TableType.classic,
    columns := [{ id := str "idc", label := str "ID" }],
    rows := [
      { id := str "r1", values := [(str "idc", str "3")], updatedAt := 0 },
      { id := str "r2", values := [(str "idc", str "7")], updatedAt := 0 },
      { id := str "r3", values := [(str "idc", str "bad")], updatedAt := 0 }],
    autoIdEnabled := true, autoIdColumnId := some (str "idc"),
    createdAt := 0, updatedAt := 0 }

/-- A folder holding `demoAutoTable`. -/
def demoFolder : Folder :=
  { id := str "f1", name := str "F", description := [], tables := [demoAutoTable],
    createdAt := 0, updatedAt := 0 }

/-- A folder with no tables at all. -/
def demoEmptyFolder : Folder :=
  { id := str "f1", name := str "F", description := [], tables := [],
    createdAt := 0, updatedAt := 0 }

/-- A classic table with two plain columns and no rows. -/
def demoTwoColTable : ProjectTable :=
  { id := str "t2", name := str "P", type := TableType.classic,
    columns := [{ id := str "a", label := str "A" }, { id := str "b", label := str "B" }],
    rows := [], createdAt := 0, updatedAt := 0 }

/-! ## C10: the designated auto-id column cannot be deleted -/

/-- C10: when the active table designates `colId` as its auto-identifier
column, `handleDeleteColumn` returns the collection unchanged: no column or
row is touched and no timestamp is bumped. -/
theorem handleDeleteColumn_autoId_noop (folders : List Folder)
    (afid atid : Option Str) (now : Nat) (colId : Str) (T : ProjectTable)
    (hT : findActiveTable folders afid atid = some T)
    (hId : T.autoIdColumnId = some colId) :
    handleDeleteColumn folders afid atid now colId = folders := by
  unfold handleDeleteColumn
  rw [hT]
  simp [Option.bind, hId]

/-- Witness for C10 at a concrete collection. -/
theorem handleDeleteColumn_autoId_noop_witness :
    findActiveTable [demoFolder] (some (str "f1")) (some (str "t1")) = some demoAutoTable
    ∧ demoAutoTable.autoIdColumnId = some (str "idc")
    ∧ handleDeleteColumn [demoFolder] (some (str "f1")) (some (str "t1")) 9 (str "idc")
        = [demoFolder] :=
  ⟨by decide, by decide,
    handleDeleteColumn_autoId_noop [demoFolder] (some (str "f1")) (some (str "t1")) 9
      (str "idc") demoAutoTable (by decide) (by decide)⟩

/-! ## C9: the mutation choke point -/

/-- C9 counterexample: with an existing active folder but a stale active table
id, the helper is not a no-op — the folder still receives a fresh `updatedAt`. -/
theorem updateActiveTable_stale_table_not_noop :
    updateActiveTable (some (str "f1")) (some (str "t1")) 5 (fun t => t) [demoEmptyFolder]
      ≠ [demoEmptyFolder] := by decide

/-- C9 (amended): the choke point preserves the collection's length, leaves
every non-active folder unchanged, is a no-op when no folder matches the
active folder id, transforms exactly the matching table of the active folder
(stamping it and the folder with the fresh `updatedAt` and leaving the other
tables and all folder metadata unchanged), and — when the active folder exists
but the active table does not — changes no table yet still refreshes the
folder's `updatedAt`. -/
theorem updateActiveTable_frame_spec (afid atid : Option Str) (now : Nat)
    (u : ProjectTable → ProjectTable) (folders : List Folder) :
    (updateActiveTable afid atid now u folders).length = folders.length
    ∧ (∀ f ∈ folders, some f.id ≠ afid → f ∈ updateActiveTable afid atid now u folders)
    ∧ ((∀ f ∈ folders, some f.id ≠ afid) → updateActiveTable afid atid now u folders = folders)
    ∧ (∀ F ∈ folders, some F.id = afid →
        ∃ F2 ∈ updateActiveTable afid atid now u folders,
          F2.id = F.id ∧ F2.name = F.name ∧ F2.description = F.description
          ∧ F2.createdAt = F.createdAt ∧ F2.updatedAt = now
          ∧ F2.tables.length = F.tables.length
          ∧ (∀ t ∈ F.tables, some t.id ≠ atid → t ∈ F2.tables)
          ∧ (∀ T ∈ F.tables, some T.id = atid →
              { u T with updatedAt := now } ∈ F2.tables))
    ∧ (∀ F ∈ folders, some F.id = afid → (∀ t ∈ F.tables, some t.id ≠ atid) →
        { F with updatedAt := now } ∈ updateActiveTable afid atid now u folders) := by
  refine ⟨?_, ?_, ?_, ?_, ?_⟩
  · simp [updateActiveTable]
  · intro f hf hne
    unfold updateActiveTable
    exact List.mem_map.mpr ⟨f, hf, by simp [hne]⟩
  · intro hall
    unfold updateActiveTable
    have : ∀ f ∈ folders,
        (if some f.id = afid then
          { f with
            tables := f.tables.map (fun t =>
              if some t.id = atid then { u t with updatedAt := now } else t),
            updatedAt := now }
        else f) = f := by
      intro f hf
      rw [if_neg (hall f hf)]
    rw [List.map_congr_left this]
    exact List.map_id' _
  · intro F hF heq
    refine ⟨{ F with
        tables := F.tables.map (fun t =>
          if some t.id = atid then { u t with updatedAt := now } else t),
        updatedAt := now }, ?_, ?_, ?_, ?_, ?_, ?_, ?_, ?_, ?_⟩
    · exact List.mem_map.mpr ⟨F, hF, by simp [heq]⟩
    · rfl
    · rfl
    · rfl
    · rfl
    · rfl
    · simp
    · intro t ht hne
      exact List.mem_map.mpr ⟨t, ht, by simp [hne]⟩
    · intro T hT hTeq
      exact List.mem_map.mpr ⟨T, hT, by simp [hTeq]⟩
  · intro F hF heq hstale
    unfold updateActiveTable
    refine List.mem_map.mpr ⟨F, hF, ?_⟩
    rw [if_pos heq]
    have : ∀ t ∈ F.tables,
        (if some t.id = atid then { u t with updatedAt := now } else t) = t := by
      intro t ht
      rw [if_neg (hstale t ht)]
    rw [List.map_congr_left this, List.map_id']

/-- Witness for C9 (amended) at a concrete collection. -/
theorem updateActiveTable_frame_spec_witness :
    (updateActiveTable (some (str "f1")) (some (str "t1")) 5 (fun t => t) [demoFolder]).length
      = 1
    ∧ { demoFolder with
        tables := [{ demoAutoTable with updatedAt := 5 }],
        updatedAt := 5 } ∈
          updateActiveTable (some (str "f1")) (some (str "t1")) 5 (fun t => t) [demoFolder] := by
  have h := updateActiveTable_frame_spec (some (str "f1")) (some (str "t1")) 5
    (fun t => t) [demoFolder]
  refine ⟨h.1, ?_⟩
  obtain ⟨F2, hF2mem, _, _, _, _, _, _, _, hTmem⟩ :=
    h.2.2.2.1 demoFolder (by simp) (by decide)
  have := hTmem demoAutoTable (by simp [demoFolder]) (by decide)
  have hF2 : F2 = { demoFolder with
      tables := [{ demoAutoTable with updatedAt := 5 }], updatedAt := 5 } := by
    have : updateActiveTable (some (str "f1")) (some (str "t1")) 5 (fun t => t) [demoFolder]
        = [{ demoFolder with
            tables := [{ demoAutoTable with updatedAt := 5 }], updatedAt := 5 }] := by decide
    rw [this] at hF2mem
    simpa using hF2mem
  rw [hF2] at hF2mem
  exact hF2mem

/-! ## C7: filter toggling -/

/-- At most one filter per (column, value) pair, as pairwise distinctness. -/
def pairUnique (l : List ActiveFilter) : Prop :=
  List.Pairwise (fun f g => ¬(f.columnId = g.columnId ∧ f.value = g.value)) l

/-- Pairwise-distinct pairs means each (column, value) pair occurs at most once. -/
theorem pairUnique_count (l : List ActiveFilter) (h : pairUnique l) (cid v : Str) :
    (l.filter (filterMatches cid v)).length ≤ 1 := by
  induction l with
  | nil => simp
  | cons f l ih =>
    rcases List.pairwise_cons.mp h with ⟨hf, hl⟩
    by_cases hm : filterMatches cid v f = true
    · have hmf : f.columnId = cid ∧ f.value = v := by
        simpa [filterMatches] using hm
      have hnil : l.filter (filterMatches cid v) = [] := by
        rw [List.filter_eq_nil_iff]
        intro g hg hgm
        have hgf : g.columnId = cid ∧ g.value = v := by
          simpa [filterMatches] using hgm
        exact hf g hg ⟨hmf.1.trans hgf.1.symm, hmf.2.trans hgf.2.symm⟩
      simp [List.filter_cons, hm, hnil]
    · simpa [List.filter_cons, hm] using ih hl

/-- Auxiliary: `find?` commutes with a map that preserves the predicate. -/
theorem find?_map_of_pred_eq {α : Type} (f : α → α) (p : α → Bool)
    (h : ∀ a, p (f a) = p a) (l : List α) :
    (l.map f).find? p = (l.find? p).map f := by
  induction l with
  | nil => rfl
  | cons a l ih =>
    by_cases hp : p a = true
    · rw [List.map_cons, List.find?_cons_of_pos _ ((h a).trans hp),
        List.find?_cons_of_pos _ hp]
      rfl
    · rw [List.map_cons,
        List.find?_cons_of_neg _ (by simp [h a, hp]),
        List.find?_cons_of_neg _ (by simp [hp]), ih]

/-- Auxiliary: filtering after a map that fixes all kept elements. -/
theorem filter_map_fixed {α : Type} (f : α → α) (p : α → Bool) (l : List α)
    (hp : ∀ a, p (f a) = p a) (hf : ∀ a ∈ l, p a = true → f a = a) :
    (l.map f).filter p = l.filter p := by
  induction l with
  | nil => rfl
  | cons a l ih =>
    by_cases hpa : p a = true
    · rw [List.map_cons, List.filter_cons_of_pos (by rw [hp a]; exact hpa),
        List.filter_cons_of_pos hpa, hf a (by simp) hpa,
        ih (fun b hb => hf b (by simp [hb]))]
    · rw [List.map_cons, List.filter_cons_of_neg (by simp [hp a, hpa]),
        List.filter_cons_of_neg (by simp [hpa]),
        ih (fun b hb => hf b (by simp [hb]))]

/-- C7: toggling a (column, value) pair cycles its state
include → exclude → absent, appends an include filter exactly when the pair is
absent, keeps at most one filter per pair, and leaves every other
(column, value) pair's filters untouched. -/
theorem toggleFilter_cycle (l : List ActiveFilter) (cid v : Str) (h : pairUnique l) :
    pairUnique (toggleFilter l cid v)
    ∧ (∀ cid2 v2, ((toggleFilter l cid v).filter (filterMatches cid2 v2)).length ≤ 1)
    ∧ (filterState l cid v = none →
        toggleFilter l cid v = l ++ [{ columnId := cid, value := v, mode := FilterMode.inc }])
    ∧ (filterState l cid v = none →
        filterState (toggleFilter l cid v) cid v = some FilterMode.inc)
    ∧ (filterState l cid v = some FilterMode.inc →
        filterState (toggleFilter l cid v) cid v = some FilterMode.exc)
    ∧ (filterState l cid v = some FilterMode.exc →
        filterState (toggleFilter l cid v) cid v = none)
    ∧ (∀ cid2 v2, ¬(cid2 = cid ∧ v2 = v) →
        (toggleFilter l cid v).filter (filterMatches cid2 v2)
          = l.filter (filterMatches cid2 v2)) := by
  have hstate : ∀ m, filterState l cid v = m → (l.find? (filterMatches cid v)).map
      ActiveFilter.mode = m := fun m hm => hm
  cases hfind : l.find? (filterMatches cid v) with
  | none =>
    have htog : toggleFilter l cid v
        = l ++ [{ columnId := cid, value := v, mode := FilterMode.inc }] := by
      unfold toggleFilter
      rw [hfind]
    have hnone : ∀ f ∈ l, ¬ filterMatches cid v f = true := List.find?_eq_none.mp hfind
    have hPU : pairUnique (toggleFilter l cid v) := by
      rw [htog]
      unfold pairUnique at h ⊢
      rw [List.pairwise_append]
      refine ⟨h, List.pairwise_singleton _ _, ?_⟩
      intro a ha b hb hab
      simp only [List.mem_singleton] at hb
      subst hb
      exact hnone a ha (by simp [filterMatches, hab.1, hab.2])
    refine ⟨hPU, fun cid2 v2 => pairUnique_count _ hPU cid2 v2, fun _ => htog, ?_, ?_, ?_, ?_⟩
    · intro _
      rw [htog]
      unfold filterState
      rw [List.find?_append, hfind]
      simp [filterMatches]
    · intro hsome
      unfold filterState at hsome
      rw [hfind] at hsome
      cases hsome
    · intro hsome
      unfold filterState at hsome
      rw [hfind] at hsome
      cases hsome
    · intro cid2 v2 hne
      rw [htog, List.filter_append]
      have : List.filter (filterMatches cid2 v2)
          [{ columnId := cid, value := v, mode := FilterMode.inc }] = [] := by
        simp only [List.filter_eq_nil_iff, List.mem_singleton, forall_eq]
        simp only [filterMatches, Bool.and_eq_true, decide_eq_true_eq]
        rintro ⟨h1, h2⟩
        exact hne ⟨h1.symm, h2.symm⟩
      rw [this, List.append_nil]
  | some ex =>
    have hex_match : filterMatches cid v ex = true := List.find?_some hfind
    have hex_pair : ex.columnId = cid ∧ ex.value = v := by
      simpa [filterMatches] using hex_match
    by_cases hmode : ex.mode = FilterMode.inc
    · -- include → exclude, via an in-place map
      have htog : toggleFilter l cid v = l.map (fun f =>
          if filterMatches cid v f then { f with mode := FilterMode.exc } else f) := by
        unfold toggleFilter
        rw [hfind]
        dsimp only
        rw [if_pos hmode]
      have hpred : ∀ (cid2 v2 : Str) (f : ActiveFilter),
          filterMatches cid2 v2
            (if filterMatches cid v f then { f with mode := FilterMode.exc } else f)
            = filterMatches cid2 v2 f := by
        intro cid2 v2 f
        by_cases hf : filterMatches cid v f = true
        · rw [if_pos hf]
          rfl
        · rw [if_neg hf]
      have hPU : pairUnique (toggleFilter l cid v) := by
        rw [htog]
        exact List.Pairwise.map _ (fun a b hab => by
          by_cases ha : filterMatches cid v a = true <;>
            by_cases hb : filterMatches cid v b = true <;>
              simpa [ha, hb] using hab) h
      refine ⟨hPU, fun cid2 v2 => pairUnique_count _ hPU cid2 v2, ?_, ?_, ?_, ?_, ?_⟩
      · intro hno
        unfold filterState at hno
        rw [hfind] at hno
        cases hno
      · intro hno
        unfold filterState at hno
        rw [hfind] at hno
        cases hno
      · intro _
        rw [htog]
        unfold filterState
        rw [find?_map_of_pred_eq _ _ (hpred cid v), hfind]
        simp only [Option.map_some']
        rw [if_pos hex_match]
      · intro hexc
        unfold filterState at hexc
        rw [hfind] at hexc
        simp only [Option.map_some', Option.some_inj] at hexc
        rw [hmode] at hexc
        cases hexc
      · intro cid2 v2 hne
        rw [htog]
        refine filter_map_fixed _ _ _ (hpred cid2 v2) ?_
        intro a _ hpa
        have hapair : a.columnId = cid2 ∧ a.value = v2 := by
          simpa [filterMatches] using hpa
        have hno : ¬ filterMatches cid v a = true := by
          intro hm
          have := (by simpa [filterMatches] using hm : a.columnId = cid ∧ a.value = v)
          exact hne ⟨hapair.1.symm.trans this.1, hapair.2.symm.trans this.2⟩
        rw [if_neg hno]
    · -- exclude → absent, via a filter
      have htog : toggleFilter l cid v = l.filter (fun f => !filterMatches cid v f) := by
        unfold toggleFilter
        rw [hfind]
        dsimp only
        rw [if_neg hmode]
      have hPU : pairUnique (toggleFilter l cid v) := by
        rw [htog]
        exact List.Pairwise.filter _ h
      refine ⟨hPU, fun cid2 v2 => pairUnique_count _ hPU cid2 v2, ?_, ?_, ?_, ?_, ?_⟩
      · intro hno
        unfold filterState at hno
        rw [hfind] at hno
        cases hno
      · intro hno
        unfold filterState at hno
        rw [hfind] at hno
        cases hno
      · intro hincl
        unfold filterState at hincl
        rw [hfind] at hincl
        simp only [Option.map_some', Option.some_inj] at hincl
        exact absurd hincl hmode
      · intro _
        rw [htog]
        unfold filterState
        have : (l.filter (fun f => !filterMatches cid v f)).find? (filterMatches cid v)
            = none := by
          rw [List.find?_eq_none]
          intro x hx
          have := (List.mem_filter.mp hx).2
          simp only [Bool.not_eq_true'] at this
          simp [this]
        rw [this]
        rfl
      · intro cid2 v2 hne
        rw [htog, List.filter_filter]
        refine List.filter_congr ?_
        intro a _
        by_cases hpa : filterMatches cid2 v2 a = true
        · have hapair : a.columnId = cid2 ∧ a.value = v2 := by
            simpa [filterMatches] using hpa
          have hno : ¬ filterMatches cid v a = true := by
            intro hm
            have := (by simpa [filterMatches] using hm : a.columnId = cid ∧ a.value = v)
            exact hne ⟨hapair.1.symm.trans this.1, hapair.2.symm.trans this.2⟩
          simp [hpa, hno]
        · simp [hpa]

/-- Witness for C7 on the empty filter list. -/
theorem toggleFilter_cycle_witness :
    pairUnique ([] : List ActiveFilter)
    ∧ filterState (toggleFilter [] (str "c") (str "x")) (str "c") (str "x")
        = some FilterMode.inc := by
  have h0 : pairUnique ([] : List ActiveFilter) := List.Pairwise.nil
  have h := toggleFilter_cycle [] (str "c") (str "x") h0
  exact ⟨h0, h.2.2.2.1 rfl⟩

/-! ## C8: column statistics -/

/-- The recorded count of a value in a frequency list (0 when absent). -/
def countOf (counts : List (Str × Nat)) (v : Str) : Nat :=
  ((counts.find? (fun p => decide (p.1 = v))).map Prod.snd).getD 0

/-- The total of all recorded counts. -/
def sumCounts (counts : List (Str × Nat)) : Nat := (counts.map Prod.snd).sum

/-- A frequency list with pairwise-distinct value keys. -/
def keyNodup (counts : List (Str × Nat)) : Prop := (counts.map Prod.fst).Nodup

/-- Auxiliary: `find?` over the increment map of `incrCount`, same key. -/
theorem find?_incr_self (cs : List (Str × Nat)) (key : Str) :
    (cs.map (fun p => if p.1 = key then (p.1, p.2 + 1) else p)).find?
        (fun p => decide (p.1 = key))
      = (cs.find? (fun p => decide (p.1 = key))).map (fun p => (p.1, p.2 + 1)) := by
  induction cs with
  | nil => rfl
  | cons q qs ih =>
    by_cases hq : q.1 = key
    · rw [List.map_cons, if_pos hq, List.find?_cons_of_pos _ (by simpa using hq),
        List.find?_cons_of_pos _ (by simpa using hq)]
      rfl
    · rw [List.map_cons, if_neg hq, List.find?_cons_of_neg _ (by simpa using hq),
        List.find?_cons_of_neg _ (by simpa using hq), ih]

/-- Auxiliary: `find?` over the increment map of `incrCount`, other key. -/
theorem find?_incr_ne (cs : List (Str × Nat)) (key v : Str) (h : v ≠ key) :
    (cs.map (fun p => if p.1 = key then (p.1, p.2 + 1) else p)).find?
        (fun p => decide (p.1 = v))
      = cs.find? (fun p => decide (p.1 = v)) := by
  induction cs with
  | nil => rfl
  | cons q qs ih =>
    by_cases hq : q.1 = v
    · have hqk : q.1 ≠ key := by rw [hq]; exact h
      rw [List.map_cons, if_neg hqk, List.find?_cons_of_pos _ (by simpa using hq),
        List.find?_cons_of_pos _ (by simpa using hq)]
    · by_cases hqk : q.1 = key
      · rw [List.map_cons, if_pos hqk,
          List.find?_cons_of_neg _ (by simp only [decide_eq_true_eq]; rw [hqk]; exact Ne.symm h),
          List.find?_cons_of_neg _ (by simpa using hq), ih]
      · rw [List.map_cons, if_neg hqk, List.find?_cons_of_neg _ (by simpa using hq),
          List.find?_cons_of_neg _ (by simpa using hq), ih]

/-- Incrementing a key raises its recorded count by one. -/
theorem countOf_incrCount_self (cs : List (Str × Nat)) (key : Str) :
    countOf (incrCount cs key) key = countOf cs key + 1 := by
  unfold incrCount countOf
  by_cases hany : cs.any (fun p => decide (p.1 = key)) = true
  · rw [if_pos hany, find?_incr_self]
    rcases hfind : cs.find? (fun p => decide (p.1 = key)) with _ | q
    · rw [List.find?_eq_none] at hfind
      rw [List.any_eq_true] at hany
      obtain ⟨x, hx, hxk⟩ := hany
      exact absurd hxk (hfind x hx)
    · rw [hfind]
      rfl
  · rw [if_neg hany, List.find?_append]
    have hn : cs.find? (fun p => decide (p.1 = key)) = none := by
      rw [List.find?_eq_none]
      intro x hx hxk
      exact hany (by rw [List.any_eq_true]; exact ⟨x, hx, hxk⟩)
    rw [hn]
    simp [List.find?]

/-- Incrementing a key leaves other keys' recorded counts unchanged. -/
theorem countOf_incrCount_ne (cs : List (Str × Nat)) (key v : Str) (h : v ≠ key) :
    countOf (incrCount cs key) v = countOf cs v := by
  unfold incrCount countOf
  by_cases hany : cs.any (fun p => decide (p.1 = key)) = true
  · rw [if_pos hany, find?_incr_ne _ _ _ h]
  · rw [if_neg hany, List.find?_append]
    have : List.find? (fun p => decide (p.1 = v)) [(key, 1)] = none := by
      simp [List.find?, Ne.symm h]
    rw [this]
    cases cs.find? (fun p => decide (p.1 = v)) <;> rfl

/-- Incrementing preserves key distinctness. -/
theorem keyNodup_incrCount (cs : List (Str × Nat)) (key : Str) (h : keyNodup cs) :
    keyNodup (incrCount cs key) := by
  unfold incrCount keyNodup
  by_cases hany : cs.any (fun p => decide (p.1 = key)) = true
  · rw [if_pos hany]
    have : (cs.map (fun p => if p.1 = key then (p.1, p.2 + 1) else p)).map Prod.fst
        = cs.map Prod.fst := by
      rw [List.map_map]
      refine List.map_congr_left ?_
      intro p _
      by_cases hp : p.1 = key <;> simp [hp]
    rw [this]
    exact h
  · rw [if_neg hany, List.map_append, List.nodup_append]
    refine ⟨h, List.nodup_singleton _, ?_⟩
    intro a ha hb
    simp only [List.map_cons, List.map_nil, List.mem_singleton] at hb
    subst hb
    obtain ⟨p, hp, hpk⟩ := List.mem_map.mp ha
    exact hany (by rw [List.any_eq_true]; exact ⟨p, hp, by simpa using hpk⟩)

/-- On a key-distinct frequency list, incrementing adds one to the total. -/
theorem sumCounts_incrCount (cs : List (Str × Nat)) (key : Str) (hnd : keyNodup cs)
    (hany : cs.any (fun p => decide (p.1 = key)) = true) :
    sumCounts (cs.map (fun p => if p.1 = key then (p.1, p.2 + 1) else p))
      = sumCounts cs + 1 := by
  induction cs with
  | nil => simp at hany
  | cons q qs ih =>
    unfold keyNodup at hnd
    rw [List.map_cons, List.nodup_cons] at hnd
    by_cases hq : q.1 = key
    · have hqs : qs.map (fun p => if p.1 = key then (p.1, p.2 + 1) else p) = qs := by
        refine List.map_congr_left ?_ |>.trans (List.map_id' _)
        intro p hp
        have : p.1 ≠ key := by
          intro hk
          exact hnd.1 (by rw [hq, ← hk]; exact List.mem_map.mpr ⟨p, hp, rfl⟩)
        simp [this]
      rw [List.map_cons, if_pos hq, hqs]
      simp [sumCounts]
      omega
    · have hany2 : qs.any (fun p => decide (p.1 = key)) = true := by
        simpa [hq] using hany
      rw [List.map_cons, if_neg hq]
      have := ih hnd.2 hany2
      simp only [sumCounts, List.map_cons, List.sum_cons] at this ⊢
      omega

/-- Incrementing any key adds exactly one to the total count. -/
theorem sumCounts_incrCount_total (cs : List (Str × Nat)) (key : Str) (hnd : keyNodup cs) :
    sumCounts (incrCount cs key) = sumCounts cs + 1 := by
  unfold incrCount
  by_cases hany : cs.any (fun p => decide (p.1 = key)) = true
  · rw [if_pos hany]
    exact sumCounts_incrCount cs key hnd hany
  · rw [if_neg hany]
    simp [sumCounts]

/-- The statistics fold, characterised against an arbitrary start state. -/
theorem columnValueStats_fold (rows : List DynamicRow) (cid : Str)
    (c0 : List (Str × Nat)) (e0 : Nat) (h0 : keyNodup c0) :
    keyNodup (rows.foldl (fun st r =>
        let val := lookupVal r.values cid
        if val = [] then (st.1, st.2 + 1) else (incrCount st.1 val, st.2)) (c0, e0)).1
    ∧ (rows.foldl (fun st r =>
        let val := lookupVal r.values cid
        if val = [] then (st.1, st.2 + 1) else (incrCount st.1 val, st.2)) (c0, e0)).2
      = e0 + (rows.filter (fun r => decide (lookupVal r.values cid = []))).length
    ∧ (∀ v : Str, v ≠ [] →
        countOf (rows.foldl (fun st r =>
          let val := lookupVal r.values cid
          if val = [] then (st.1, st.2 + 1) else (incrCount st.1 val, st.2)) (c0, e0)).1 v
        = countOf c0 v
          + (rows.filter (fun r => decide (lookupVal r.values cid = v))).length)
    ∧ sumCounts (rows.foldl (fun st r =>
        let val := lookupVal r.values cid
        if val = [] then (st.1, st.2 + 1) else (incrCount st.1 val, st.2)) (c0, e0)).1
      = sumCounts c0
        + (rows.filter (fun r => !decide (lookupVal r.values cid = []))).length := by
  induction rows generalizing c0 e0 with
  | nil => simp [h0]
  | cons r rows ih =>
    by_cases hval : lookupVal r.values cid = []
    · have step : (List.foldl (fun st r =>
          let val := lookupVal r.values cid
          if val = [] then (st.1, st.2 + 1) else (incrCount st.1 val, st.2)) (c0, e0) (r :: rows))
          = List.foldl (fun st r =>
            let val := lookupVal r.values cid
            if val = [] then (st.1, st.2 + 1) else (incrCount st.1 val, st.2)) (c0, e0 + 1) rows := by
        simp only [List.foldl_cons]
        rw [if_pos hval]
      obtain ⟨ha, hb, hc, hd⟩ := ih c0 (e0 + 1) h0
      rw [step]
      refine ⟨ha, ?_, ?_, ?_⟩
      · rw [hb, List.filter_cons_of_pos (by simpa using hval)]
        simp only [List.length_cons]
        omega
      · intro v hv
        rw [hc v hv, List.filter_cons_of_neg ?_]
        simp only [decide_eq_true_eq]
        intro hh
        apply hv
        rw [← hh, hval]
      · rw [hd, List.filter_cons_of_neg (by simp [hval])]
    · have step : (List.foldl (fun st r =>
          let val := lookupVal r.values cid
          if val = [] then (st.1, st.2 + 1) else (incrCount st.1 val, st.2)) (c0, e0) (r :: rows))
          = List.foldl (fun st r =>
            let val := lookupVal r.values cid
            if val = [] then (st.1, st.2 + 1) else (incrCount st.1 val, st.2))
            (incrCount c0 (lookupVal r.values cid), e0) rows := by
        simp only [List.foldl_cons]
        rw [if_neg hval]
      obtain ⟨ha, hb, hc, hd⟩ := ih (incrCount c0 (lookupVal r.values cid)) e0
        (keyNodup_incrCount _ _ h0)
      rw [step]
      refine ⟨ha, ?_, ?_, ?_⟩
      · rw [hb, List.filter_cons_of_neg (by simpa using hval)]
      · intro v hv
        rw [hc v hv]
        by_cases hveq : lookupVal r.values cid = v
        · rw [hveq, countOf_incrCount_self,
            List.filter_cons_of_pos (by simpa using hveq)]
          simp only [List.length_cons]
          omega
        · rw [countOf_incrCount_ne _ _ _ (fun hh => hveq hh.symm)]
          rw [List.filter_cons_of_neg (by simpa using hveq)]
      · rw [hd, sumCounts_incrCount_total _ _ h0,
          List.filter_cons_of_pos (by simpa using hval)]
        simp only [List.length_cons]
        omega

/-- C8: for every table and column, `columnValueStats` maps each distinct
non-empty cell value (exact string match) to its occurrence count over all
rows of the table, counts empty/absent cells separately, and the empty count
plus the sum of all value counts equals the total row count.  The function is
computed from the table alone, hence independent of active filters, search
text and the current page. -/
theorem columnValueStats_spec (t : ProjectTable) (cid : Str) :
    (columnValueStats t cid).2
        = (t.rows.filter (fun r => decide (lookupVal r.values cid = []))).length
    ∧ (∀ v : Str, v ≠ [] → countOf (columnValueStats t cid).1 v
        = (t.rows.filter (fun r => decide (lookupVal r.values cid = v))).length)
    ∧ (columnValueStats t cid).2 + sumCounts (columnValueStats t cid).1 = t.rows.length := by
  have h := columnValueStats_fold t.rows cid [] 0 (by simp [keyNodup])
  obtain ⟨_, hb, hc, hd⟩ := h
  unfold columnValueStats
  refine ⟨by rw [hb]; omega, ?_, ?_⟩
  · intro v hv
    rw [hc v hv]
    simp [countOf]
  · rw [hb, hd]
    simp only [sumCounts, List.map_nil, List.sum_nil, Nat.zero_add]
    exact (List.length_eq_length_filter_add
      (l := t.rows) (fun (r : DynamicRow) => decide (lookupVal r.values cid = []))).symm

/-- Witness for C8 at a concrete table. -/
theorem columnValueStats_spec_witness :
    ((str "3" : Str) ≠ [])
    ∧ countOf (columnValueStats demoAutoTable (str "idc")).1 (str "3") = 1
    ∧ (columnValueStats demoAutoTable (str "idc")).2
        + sumCounts (columnValueStats demoAutoTable (str "idc")).1 = 3 := by
  have h := columnValueStats_spec demoAutoTable (str "idc")
  refine ⟨by decide, ?_, ?_⟩
  · rw [h.2.1 (str "3") (by decide)]
    decide
  · rw [h.2.2]
    decide

/-! ## C6: identifier sequencing -/

/-- The identifier cells of all rows that parse as integers. -/
def parsedIds (t : ProjectTable) (cid : Str) : List Int :=
  t.rows.filterMap (fun r => parseIntJS (lookupVal r.values cid))

/-- The specification-side maximum: the greatest element of a list of parsed
identifiers, defaulting to 0 when none parse. -/
def specMaxId : List Int → Int
  | [] => 0
  | x :: xs => xs.foldl max x

/-- Auxiliary: a fold that skips `none` results equals the fold over
`filterMap`. -/
theorem foldl_skip_none {α : Type} (f : α → Option Int) (step : Int → Int → Int) :
    ∀ (l : List α) (a : Int),
      l.foldl (fun mx x => match f x with | none => mx | some n => step mx n) a
        = (l.filterMap f).foldl step a := by
  intro l
  induction l with
  | nil => intro a; rfl
  | cons x xs ih =>
    intro a
    rcases hfx : f x with _ | n <;>
      simp only [List.foldl_cons, List.filterMap_cons, hfx, ih]

/-- Auxiliary: the running-maximum step of `nextIdStart` is `max`. -/
theorem idStep_eq_max : (fun (mx num : Int) => if num > mx then num else mx)
    = fun mx num => max mx num := by
  funext mx num
  by_cases h : num > mx
  · rw [if_pos h, max_eq_right (le_of_lt h)]
  · rw [if_neg h, max_eq_left (le_of_not_lt h)]

/-- Auxiliary: folding `max` from 0 over nonnegative values is the list
maximum with default 0. -/
theorem foldl_max_zero_eq_specMaxId (L : List Int) (hpos : ∀ n ∈ L, 0 ≤ n) :
    L.foldl (fun mx num => max mx num) 0 = specMaxId L := by
  cases L with
  | nil => rfl
  | cons x xs =>
    simp only [List.foldl_cons, specMaxId]
    rw [max_eq_right (hpos x (by simp))]

/-- C6: with an effective identifier column, the next identifier block starts
at one plus the maximum of the rows' identifier cells that parse as integers
(0 when none parse), and both generation modes assign identifiers
sequentially, row `i` of the new block receiving `nextIdStart + i`; on
identifier cells 3, 7, "bad" the next block starts at 8. -/
theorem nextIdStart_spec (t : ProjectTable) (cid : Str)
    (hid : effIdCol t = some cid)
    (hpos : ∀ n ∈ parsedIds t cid, 0 ≤ n) :
    nextIdStart t cid = specMaxId (parsedIds t cid) + 1
    ∧ (∀ inputs now i, i < classicMaxRows t inputs →
        lookupVal ((classicNewRows t inputs now).getD i
            { id := [], values := [], updatedAt := 0 }).values cid
          = intToStr (nextIdStart t cid + i))
    ∧ (∀ inputs now i, i < (pairwiseCombos t inputs).length →
        lookupVal ((pairwiseNewRows t inputs now).getD i
            { id := [], values := [], updatedAt := 0 }).values cid
          = intToStr (nextIdStart t cid + i))
    ∧ nextIdStart demoAutoTable (str "idc") = 8 := by
  refine ⟨?_, ?_, ?_, by decide⟩
  · unfold nextIdStart parsedIds
    unfold parsedIds at hpos
    rw [foldl_skip_none (fun r => parseIntJS (lookupVal r.values cid))
      (fun mx num => if num > mx then num else mx) t.rows 0, idStep_eq_max,
      foldl_max_zero_eq_specMaxId _ hpos]
  · intro inputs now i hi
    have hlen : i < (classicNewRows t inputs now).length := by
      simpa [classicNewRows] using hi
    rw [List.getD_eq_getElem _ _ hlen]
    unfold classicNewRows
    rw [List.getElem_map, List.getElem_range]
    unfold classicRowValues generationNextId
    rw [hid]
    simp only
    rw [lookupVal_setVal_self]
  · intro inputs now i hi
    have hlen : i < (pairwiseNewRows t inputs now).length := by
      simpa [pairwiseNewRows] using hi
    rw [List.getD_eq_getElem _ _ hlen]
    unfold pairwiseNewRows generationNextId
    rw [List.getElem_map]
    simp only [List.getElem_enum, hid]
    rw [lookupVal_setVal_self]

/-- Witness for C6 at the 3 / 7 / "bad" table. -/
theorem nextIdStart_spec_witness :
    effIdCol demoAutoTable = some (str "idc")
    ∧ (∀ n ∈ parsedIds demoAutoTable (str "idc"), 0 ≤ n)
    ∧ nextIdStart demoAutoTable (str "idc")
        = specMaxId (parsedIds demoAutoTable (str "idc")) + 1
    ∧ nextIdStart demoAutoTable (str "idc") = 8 := by
  have h := nextIdStart_spec demoAutoTable (str "idc") (by decide) (by decide)
  exact ⟨by decide, by decide, h.1, h.2.2.2⟩

/-! ## C5: classic-mode generation -/

/-- Auxiliary: the seed is below a `max`-fold. -/
theorem le_foldl_max {α : Type} (g : α → Nat) :
    ∀ (l : List α) (a : Nat), a ≤ l.foldl (fun mx c => max mx (g c)) a := by
  intro l
  induction l with
  | nil => intro a; exact Nat.le_refl a
  | cons c cs ih =>
    intro a
    exact le_trans (Nat.le_max_left a (g c)) (ih (max a (g c)))

/-- Auxiliary: every member is below the `max`-fold. -/
theorem mem_le_foldl_max {α : Type} (g : α → Nat) :
    ∀ (l : List α) (a : Nat) (c : α), c ∈ l → g c ≤ l.foldl (fun mx c => max mx (g c)) a := by
  intro l
  induction l with
  | nil => intro a c hc; cases hc
  | cons d ds ih =>
    intro a c hc
    rcases List.mem_cons.mp hc with h | h
    · subst h
      exact le_trans (Nat.le_max_right a (g c)) (le_foldl_max g ds (max a (g c)))
    · exact ih (max a (g d)) c h

/-- Auxiliary: the `max`-fold is the seed or attained by a member. -/
theorem foldl_max_attained {α : Type} (g : α → Nat) :
    ∀ (l : List α) (a : Nat),
      l.foldl (fun mx c => max mx (g c)) a = a
      ∨ ∃ c ∈ l, l.foldl (fun mx c => max mx (g c)) a = g c := by
  intro l
  induction l with
  | nil => intro a; exact Or.inl rfl
  | cons d ds ih =>
    intro a
    rcases ih (max a (g d)) with h | ⟨c, hc, hcv⟩
    · simp only [List.foldl_cons]
      rcases Nat.le_total a (g d) with hle | hle
      · rw [h, max_eq_right hle]
        exact Or.inr ⟨d, by simp, rfl⟩
      · rw [h, max_eq_left hle]
        exact Or.inl rfl
    · exact Or.inr ⟨c, by simp [hc], by simpa using hcv⟩

/-- C5: classic generation splits each column's input on `/` with parts
trimmed but unfiltered, produces exactly the maximum part-count many rows,
prepends them before the existing rows, and row `i` holds part `i` of each
(non-identifier) column, the empty string when that column has fewer parts. -/
theorem classicGenerate_spec (t : ProjectTable) (inputs : Values) (now : Nat) :
    (classicGenerate t inputs now).rows = classicNewRows t inputs now ++ t.rows
    ∧ (classicNewRows t inputs now).length = classicMaxRows t inputs
    ∧ (∀ c ∈ t.columns,
        (splitSlash (lookupVal inputs c.id)).length ≤ classicMaxRows t inputs)
    ∧ (classicMaxRows t inputs = 0 ∨ ∃ c ∈ t.columns,
        classicMaxRows t inputs = (splitSlash (lookupVal inputs c.id)).length)
    ∧ (∀ i, i < classicMaxRows t inputs → ∀ c ∈ t.columns, effIdCol t ≠ some c.id →
        lookupVal ((classicNewRows t inputs now).getD i
            { id := [], values := [], updatedAt := 0 }).values c.id
          = (splitSlash (lookupVal inputs c.id)).getD i []) := by
  refine ⟨rfl, by simp [classicNewRows], ?_, ?_, ?_⟩
  · intro c hc
    exact mem_le_foldl_max (fun c => (splitSlash (lookupVal inputs c.id)).length)
      t.columns 0 c hc
  · exact foldl_max_attained (fun c => (splitSlash (lookupVal inputs c.id)).length)
      t.columns 0
  · intro i hi c hc hne
    have hlen : i < (classicNewRows t inputs now).length := by
      simpa [classicNewRows] using hi
    rw [List.getD_eq_getElem _ _ hlen]
    unfold classicNewRows
    rw [List.getElem_map, List.getElem_range]
    unfold classicRowValues
    simp only
    have hbase : lookupVal (t.columns.foldl (fun vs c =>
        setVal vs c.id ((splitSlash (lookupVal inputs c.id)).getD i [])) []) c.id
        = (splitSlash (lookupVal inputs c.id)).getD i [] := by
      rw [lookupVal_foldl_setVal t.columns
        (fun x => (splitSlash (lookupVal inputs x)).getD i []) [] c.id]
      rw [if_pos (by rw [List.any_eq_true]; exact ⟨c, hc, by simp⟩)]
    rcases hid : effIdCol t with _ | cid
    · exact hbase
    · have : cid ≠ c.id := by
        intro hcc
        exact hne (by rw [hid, hcc])
      rw [lookupVal_setVal_ne _ _ _ _ (fun hh => this hh.symm)]
      exact hbase

/-- Witness for C5 at concrete inputs `1/2/3` and `x/y`. -/
theorem classicGenerate_spec_witness :
    (1 < classicMaxRows demoTwoColTable [(str "a", str "1/2/3"), (str "b", str "x/y")])
    ∧ lookupVal ((classicNewRows demoTwoColTable
          [(str "a", str "1/2/3"), (str "b", str "x/y")] 9).getD 1
          { id := [], values := [], updatedAt := 0 }).values (str "b")
        = str "y"
    ∧ lookupVal ((classicNewRows demoTwoColTable
          [(str "a", str "1/2/3"), (str "b", str "x/y")] 9).getD 2
          { id := [], values := [], updatedAt := 0 }).values (str "b")
        = [] := by
  have h := classicGenerate_spec demoTwoColTable
    [(str "a", str "1/2/3"), (str "b", str "x/y")] 9
  refine ⟨by decide, ?_, ?_⟩
  · rw [h.2.2.2.2 1 (by decide) { id := str "b", label := str "B" } (by decide) (by decide)]
    decide
  · rw [h.2.2.2.2 2 (by decide) { id := str "b", label := str "B" } (by decide) (by decide)]
    decide

/-! ## C4: pairwise-mode generation -/

/-- The cartesian product of option lists, first list varying slowest. -/
def cartProd : List (List Str) → List (List Str)
  | [] => [[]]
  | o :: rest => o.flatMap (fun v => (cartProd rest).map (fun tl => v :: tl))

/-- Assigning one product tuple to a record, key by key in column order,
exactly as the recursive `generate` writes `current[key] = val`. -/
def assignCombo (current : Values) (keys : List Str) (tuple : List Str) : Values :=
  (keys.zip tuple).foldl (fun vs kv => setVal vs kv.1 kv.2) current

/-- Auxiliary: summing a constant over a list. -/
theorem sum_map_const {α : Type} (l : List α) (n : Nat) :
    (l.map (fun _ => n)).sum = l.length * n := by
  induction l with
  | nil => simp
  | cons x xs ih =>
    simp only [List.map_cons, List.sum_cons, List.length_cons, ih]
    ring

/-- Auxiliary: the product's size is the product of the option counts. -/
theorem cartProd_length (ls : List (List Str)) :
    (cartProd ls).length = (ls.map List.length).prod := by
  induction ls with
  | nil => rfl
  | cons o rest ih =>
    simp only [cartProd, List.map_cons, List.prod_cons]
    rw [List.length_flatMap]
    have hmap : (o.map (List.length ∘ fun v => (cartProd rest).map (fun tl => v :: tl)))
        = o.map (fun _ => (cartProd rest).length) := by
      refine List.map_congr_left ?_
      intro v _
      simp [Function.comp, List.length_map]
    rw [hmap, ih, sum_map_const]

/-- The recursive bounded `generate` produces exactly the first
`2000 - acc.length` elements of the cartesian product, appended to the
accumulator. -/
theorem genAux_eq (opts : List (Str × List Str)) :
    ∀ (current : Values) (acc : List Values),
      genAux opts current acc
        = acc ++ ((cartProd (opts.map Prod.snd)).map
            (fun tuple => assignCombo current (opts.map Prod.fst) tuple)).take
            (2000 - acc.length) := by
  induction opts with
  | nil =>
    intro current acc
    rw [genAux]
    by_cases h : acc.length ≥ 2000
    · rw [if_pos h]
      have h0 : 2000 - acc.length = 0 := by omega
      simp [cartProd, h0]
    · rw [if_neg h]
      have h0 : ∃ m, 2000 - acc.length = m + 1 := ⟨1999 - acc.length, by omega⟩
      obtain ⟨m, hm⟩ := h0
      simp [cartProd, hm, assignCombo]
  | cons kv rest ih =>
    intro current acc
    obtain ⟨k, vs⟩ := kv
    rw [genAux]
    by_cases h : acc.length ≥ 2000
    · rw [if_pos h]
      have h0 : 2000 - acc.length = 0 := by omega
      rw [h0, List.take_zero, List.append_nil]
    · rw [if_neg h]
      have hfold : ∀ (ws : List Str) (a : List Values),
          ws.foldl (fun a v => genAux rest (setVal current k v) a) a
            = a ++ (ws.flatMap (fun v => (cartProd (rest.map Prod.snd)).map
                (fun tl => assignCombo (setVal current k v) (rest.map Prod.fst) tl))).take
                (2000 - a.length) := by
        intro ws
        induction ws with
        | nil => intro a; simp
        | cons w wt ihw =>
          intro a
          rw [List.foldl_cons, ih (setVal current k w) a, ihw]
          rw [List.flatMap_cons, List.take_append_eq_append_take, List.append_assoc]
          congr 2
          simp only [List.length_append, List.length_take]
          congr 1
          simp only [inf_eq_min, Nat.min_def]
          split <;> omega
      rw [hfold vs acc]
      congr 1
      simp only [List.map_cons, cartProd]
      rw [List.map_flatMap]
      congr 1
      refine congrArg (List.flatMap vs) (funext fun v => ?_)
      rw [List.map_map]
      rfl

/-- The input whose options are 1 through 50. -/
def demoFiftyInput : Str := List.intercalate ['/'] ((List.range 50).map (fun n => natToStr (n + 1)))

/-- C4: pairwise generation parses each column's input into options (split on
`/`, trimmed, empties dropped, defaulting to the single empty string), and
emits exactly the first `min (product size) 2000` tuples of the cartesian
product in column order with the first column varying slowest; in particular
option counts 50 × 50 produce exactly 2000 rows, and the generated rows are
these combinations prepended to the table. -/
theorem pairwiseGenerate_spec (t : ProjectTable) (inputs : Values) (now : Nat) :
    pairwiseCombos t inputs
      = ((cartProd (t.columns.map (fun c => pairwiseOptions (lookupVal inputs c.id)))).map
          (fun tuple => assignCombo [] (t.columns.map Column.id) tuple)).take 2000
    ∧ (pairwiseCombos t inputs).length
        = min 2000 ((t.columns.map
            (fun c => (pairwiseOptions (lookupVal inputs c.id)).length)).prod)
    ∧ (pairwiseGenerate t inputs now).rows = pairwiseNewRows t inputs now ++ t.rows
    ∧ (pairwiseNewRows t inputs now).length = (pairwiseCombos t inputs).length
    ∧ (∀ t2 inputs2,
        (t2.columns.map (fun c => (pairwiseOptions (lookupVal inputs2 c.id)).length))
          = [50, 50] →
        (pairwiseCombos t2 inputs2).length = 2000) := by
  have hmain : ∀ (t2 : ProjectTable) (inputs2 : Values), pairwiseCombos t2 inputs2
      = ((cartProd (t2.columns.map (fun c => pairwiseOptions (lookupVal inputs2 c.id)))).map
          (fun tuple => assignCombo [] (t2.columns.map Column.id) tuple)).take 2000 := by
    intro t2 inputs2
    unfold pairwiseCombos
    rw [genAux_eq]
    simp only [List.nil_append, List.length_nil, Nat.sub_zero, List.map_map]
    rfl
  have hlen : ∀ (t2 : ProjectTable) (inputs2 : Values), (pairwiseCombos t2 inputs2).length
      = min 2000 ((t2.columns.map
          (fun c => (pairwiseOptions (lookupVal inputs2 c.id)).length)).prod) := by
    intro t2 inputs2
    rw [hmain t2 inputs2, List.length_take, List.length_map, cartProd_length, List.map_map]
    rfl
  refine ⟨hmain t inputs, hlen t inputs, rfl, by simp [pairwiseNewRows], ?_⟩
  intro t2 inputs2 h50
  rw [hlen t2 inputs2, h50]
  norm_num

/-- Witness for C4's 50 × 50 bound at a concrete table and inputs. -/
theorem pairwiseGenerate_spec_witness :
    ((demoTwoColTable.columns.map (fun c => (pairwiseOptions
        (lookupVal [(str "a", demoFiftyInput), (str "b", demoFiftyInput)] c.id)).length))
      = [50, 50])
    ∧ (pairwiseCombos demoTwoColTable
        [(str "a", demoFiftyInput), (str "b", demoFiftyInput)]).length = 2000 := by
  refine ⟨by decide, ?_⟩
  exact (pairwiseGenerate_spec demoTwoColTable
    [(str "a", demoFiftyInput), (str "b", demoFiftyInput)] 0).2.2.2.2
    demoTwoColTable [(str "a", demoFiftyInput), (str "b", demoFiftyInput)] (by decide)

/-! ## C3: CSV round trip -/

/-- Scanner step: end of input flushes the cell and row. -/
theorem parseCSVAux_nil (inq : Bool) (cell : Str) (row : List Str)
    (rows : List (List Str)) :
    parseCSVAux inq cell row rows [] = rows ++ [row ++ [cell]] := by
  cases inq <;> rfl

/-- Scanner step: a doubled quote inside quotes emits one literal quote. -/
theorem parseCSVAux_qq (cell : Str) (row : List Str) (rows : List (List Str)) (rest : Str) :
    parseCSVAux true cell row rows ('"' :: '"' :: rest)
      = parseCSVAux true (cell ++ ['"']) row rows rest := rfl

/-- Scanner step: a quote inside quotes not followed by a quote closes them. -/
theorem parseCSVAux_q_close (cell : Str) (row : List Str) (rows : List (List Str))
    (rest : Str) (h : rest.head? ≠ some '"') :
    parseCSVAux true cell row rows ('"' :: rest) = parseCSVAux false cell row rows rest := by
  cases rest with
  | nil => rfl
  | cons c t =>
    have hc : c ≠ '"' := by
      intro hh
      rw [hh] at h
      exact h rfl
    simp [parseCSVAux, hc]

/-- Scanner step: an unquoted quote opens quotes. -/
theorem parseCSVAux_q_open (cell : Str) (row : List Str) (rows : List (List Str))
    (rest : Str) :
    parseCSVAux false cell row rows ('"' :: rest) = parseCSVAux true cell row rows rest := by
  cases rest with
  | nil => rfl
  | cons c t => simp [parseCSVAux]

/-- Scanner step: an unquoted comma ends the cell. -/
theorem parseCSVAux_comma (cell : Str) (row : List Str) (rows : List (List Str))
    (rest : Str) :
    parseCSVAux false cell row rows (',' :: rest)
      = parseCSVAux false [] (row ++ [cell]) rows rest := by
  simp [parseCSVAux]

/-- Scanner step: a quoted comma is literal. -/
theorem parseCSVAux_comma_inq (cell : Str) (row : List Str) (rows : List (List Str))
    (rest : Str) :
    parseCSVAux true cell row rows (',' :: rest)
      = parseCSVAux true (cell ++ [',']) row rows rest := by
  simp [parseCSVAux]

/-- Scanner step: an unquoted newline ends the cell and the row. -/
theorem parseCSVAux_newline (cell : Str) (row : List Str) (rows : List (List Str))
    (rest : Str) :
    parseCSVAux false cell row rows ('\n' :: rest)
      = parseCSVAux false [] [] (rows ++ [row ++ [cell]]) rest := by
  simp [parseCSVAux]

/-- Scanner step: a quoted newline is literal. -/
theorem parseCSVAux_newline_inq (cell : Str) (row : List Str) (rows : List (List Str))
    (rest : Str) :
    parseCSVAux true cell row rows ('\n' :: rest)
      = parseCSVAux true (cell ++ ['\n']) row rows rest := by
  simp [parseCSVAux]

/-- Scanner step: any other character is appended to the cell. -/
theorem parseCSVAux_other (inq : Bool) (cell : Str) (row : List Str)
    (rows : List (List Str)) (rest : Str) (c : Char)
    (h1 : c ≠ '"') (h2 : c ≠ ',') (h3 : c ≠ '\n') (h4 : c ≠ '\r') :
    parseCSVAux inq cell row rows (c :: rest)
      = parseCSVAux inq (cell ++ [c]) row rows rest := by
  cases inq <;> simp [parseCSVAux, h1, h2, h3, h4]

/-- Scanner step: inside quotes, every character except quote and `\r` is
appended. -/
theorem parseCSVAux_any_inq (cell : Str) (row : List Str) (rows : List (List Str))
    (rest : Str) (c : Char) (h1 : c ≠ '"') (h4 : c ≠ '\r') :
    parseCSVAux true cell row rows (c :: rest)
      = parseCSVAux true (cell ++ [c]) row rows rest := by
  by_cases h2 : c = ','
  · subst h2
    exact parseCSVAux_comma_inq cell row rows rest
  · by_cases h3 : c = '\n'
    · subst h3
      exact parseCSVAux_newline_inq cell row rows rest
    · exact parseCSVAux_other true cell row rows rest c h1 h2 h3 h4

/-- A run of plain characters outside quotes accumulates into the cell. -/
theorem parseCSVAux_plain_run (cs : Str)
    (hplain : ∀ c ∈ cs, c ≠ '"' ∧ c ≠ ',' ∧ c ≠ '\n' ∧ c ≠ '\r') :
    ∀ (cell : Str) (row : List Str) (rows : List (List Str)) (t : Str),
      parseCSVAux false cell row rows (cs ++ t)
        = parseCSVAux false (cell ++ cs) row rows t := by
  induction cs with
  | nil =>
    intro cell row rows t
    rw [List.nil_append, List.append_nil]
  | cons c cs ih =>
    intro cell row rows t
    obtain ⟨h1, h2, h3, h4⟩ := hplain c (by simp)
    rw [List.cons_append, parseCSVAux_other false cell row rows _ c h1 h2 h3 h4,
      ih (fun x hx => hplain x (by simp [hx])) (cell ++ [c]) row rows t,
      List.append_assoc]
    rfl

/-- A quote-doubled run inside quotes accumulates the original characters,
and the closing quote (not followed by another quote) ends the quoted state. -/
theorem parseCSVAux_quoted_run (cs : Str) (hcr : ∀ c ∈ cs, c ≠ '\r') :
    ∀ (cell : Str) (row : List Str) (rows : List (List Str)) (t : Str),
      t.head? ≠ some '"' →
      parseCSVAux true cell row rows (doubleQuotes cs ++ '"' :: t)
        = parseCSVAux false (cell ++ cs) row rows t := by
  induction cs with
  | nil =>
    intro cell row rows t ht
    rw [show doubleQuotes [] = [] from rfl, List.nil_append,
      parseCSVAux_q_close cell row rows t ht, List.append_nil]
  | cons c cs ih =>
    intro cell row rows t ht
    by_cases hc : c = '"'
    · subst hc
      rw [show doubleQuotes ('"' :: cs) = '"' :: '"' :: doubleQuotes cs from by
          simp [doubleQuotes]]
      rw [List.cons_append, List.cons_append, parseCSVAux_qq,
        ih (fun x hx => hcr x (by simp [hx])) (cell ++ ['"']) row rows t ht,
        List.append_assoc]
      rfl
    · rw [show doubleQuotes (c :: cs) = c :: doubleQuotes cs from by
          simp [doubleQuotes, hc]]
      rw [List.cons_append,
        parseCSVAux_any_inq cell row rows _ c hc (hcr c (by simp)),
        ih (fun x hx => hcr x (by simp [hx])) (cell ++ [c]) row rows t ht,
        List.append_assoc]
      rfl

/-- Scanning one encoded cell from an empty cell accumulator recovers the
cell, provided the following text does not begin with a quote. -/
theorem parseCSVAux_cell (v : Str) (hcr : '\r' ∉ v) :
    ∀ (row : List Str) (rows : List (List Str)) (t : Str), t.head? ≠ some '"' →
      parseCSVAux false [] row rows (escapeCell v ++ t)
        = parseCSVAux false v row rows t := by
  intro row rows t ht
  unfold escapeCell
  by_cases hq : needsQuote v = true
  · rw [if_pos hq]
    have hshape : (('"' :: doubleQuotes v ++ ['"']) ++ t)
        = '"' :: (doubleQuotes v ++ '"' :: t) := by
      simp
    rw [hshape, parseCSVAux_q_open]
    have := parseCSVAux_quoted_run v
      (fun c hc hcceq => hcr (by rw [← hcceq]; exact hc)) [] row rows t ht
    simpa using this
  · rw [if_neg hq]
    have hplain : ∀ c ∈ v, c ≠ '"' ∧ c ≠ ',' ∧ c ≠ '\n' ∧ c ≠ '\r' := by
      intro c hc
      have hno : ¬(c = '"' ∨ c = ',' ∨ c = '\n') := by
        intro hor
        exact hq (by rw [needsQuote, List.any_eq_true]; exact ⟨c, hc, by simpa using hor⟩)
      push_neg at hno
      exact ⟨hno.1, hno.2.1, hno.2.2, fun hc4 => hcr (by rw [← hc4]; exact hc)⟩
    simpa using parseCSVAux_plain_run v hplain [] row rows t

/-- `encodeRow` on a singleton. -/
theorem encodeRow_singleton (v : Str) : encodeRow [v] = escapeCell v := by
  simp [encodeRow, List.intercalate]

/-- `encodeRow` on two or more cells. -/
theorem encodeRow_cons₂ (v w : Str) (r : List Str) :
    encodeRow (v :: w :: r) = escapeCell v ++ ',' :: encodeRow (w :: r) := by
  simp [encodeRow, List.intercalate, List.intersperse]

/-- Scanning one encoded row followed by a newline appends the row. -/
theorem parseCSVAux_row_newline (r : List Str) (hr : r ≠ [])
    (hcr : ∀ v ∈ r, '\r' ∉ v) :
    ∀ (row0 : List Str) (rows : List (List Str)) (t : Str),
      parseCSVAux false [] row0 rows (encodeRow r ++ '\n' :: t)
        = parseCSVAux false [] [] (rows ++ [row0 ++ r]) t := by
  induction r with
  | nil => exact absurd rfl hr
  | cons v rt ih =>
    intro row0 rows t
    cases rt with
    | nil =>
      rw [encodeRow_singleton,
        parseCSVAux_cell v (hcr v (by simp)) row0 rows ('\n' :: t) (by simp),
        parseCSVAux_newline]
    | cons w rt2 =>
      rw [encodeRow_cons₂, List.append_assoc, List.cons_append,
        parseCSVAux_cell v (hcr v (by simp)) row0 rows _ (by simp),
        parseCSVAux_comma,
        ih (by simp) (fun x hx => hcr x (by simp [hx])) (row0 ++ [v]) rows t,
        List.append_assoc]
      rfl

/-- Scanning one encoded row at the end of input flushes the row. -/
theorem parseCSVAux_row_end (r : List Str) (hr : r ≠ [])
    (hcr : ∀ v ∈ r, '\r' ∉ v) :
    ∀ (row0 : List Str) (rows : List (List Str)),
      parseCSVAux false [] row0 rows (encodeRow r) = rows ++ [row0 ++ r] := by
  induction r with
  | nil => exact absurd rfl hr
  | cons v rt ih =>
    intro row0 rows
    cases rt with
    | nil =>
      have := parseCSVAux_cell v (hcr v (by simp)) row0 rows [] (by simp)
      rw [List.append_nil] at this
      rw [encodeRow_singleton, this, parseCSVAux_nil]
    | cons w rt2 =>
      rw [encodeRow_cons₂,
        parseCSVAux_cell v (hcr v (by simp)) row0 rows _ (by simp),
        parseCSVAux_comma,
        ih (by simp) (fun x hx => hcr x (by simp [hx])) (row0 ++ [v]) rows,
        List.append_assoc]
      rfl

/-- Scanning a whole encoded grid appends every row. -/
theorem parseCSVAux_grid (g : List (List Str)) (hg : ∀ r ∈ g, r ≠ [])
    (hcr : ∀ r ∈ g, ∀ v ∈ r, '\r' ∉ v) (hne : g ≠ []) :
    ∀ (rows : List (List Str)),
      parseCSVAux false [] [] rows (List.intercalate ['\n'] (g.map encodeRow))
        = rows ++ g := by
  induction g with
  | nil => exact absurd rfl hne
  | cons r g2 ih =>
    intro rows
    cases g2 with
    | nil =>
      rw [show List.intercalate ['\n'] ([r].map encodeRow) = encodeRow r from by
          simp [List.intercalate]]
      have := parseCSVAux_row_end r (hg r (by simp)) (hcr r (by simp)) [] rows
      rw [List.nil_append] at this
      exact this
    | cons r2 g3 =>
      rw [show List.intercalate ['\n'] ((r :: r2 :: g3).map encodeRow)
          = encodeRow r ++ '\n' :: List.intercalate ['\n'] ((r2 :: g3).map encodeRow) from by
          simp [List.intercalate, List.intersperse]]
      rw [parseCSVAux_row_newline r (hg r (by simp)) (hcr r (by simp)) [] rows _]
      rw [ih (fun x hx => hg x (by simp [hx])) (fun x hx => hcr x (by simp [hx]))
        (by simp) (rows ++ [[] ++ r])]
      simp

/-- C3: decoding the encoding of a grid recovers the grid, for every grid in
which each row has a cell that is non-blank after trimming and no cell
contains a carriage return: `parseCSV (stringifyCSV g) = g`. -/
theorem parseCSV_stringifyCSV (g : List (List Str))
    (hblank : ∀ r ∈ g, ∃ v ∈ r, cellNonBlank v = true)
    (hcr : ∀ r ∈ g, ∀ v ∈ r, '\r' ∉ v) :
    parseCSV (stringifyCSV g) = g := by
  cases g with
  | nil => rfl
  | cons r g2 =>
    have hg : ∀ x ∈ r :: g2, x ≠ [] := by
      intro x hx hxe
      obtain ⟨v, hv, _⟩ := hblank x hx
      rw [hxe] at hv
      cases hv
    unfold parseCSV stringifyCSV
    rw [parseCSVAux_grid (r :: g2) hg hcr (by simp) []]
    rw [List.nil_append]
    rw [List.filter_eq_self]
    intro x hx
    obtain ⟨v, hv, hvb⟩ := hblank x hx
    rw [List.any_eq_true]
    exact ⟨v, hv, hvb⟩

/-- Witness for C3 at a grid exercising commas, quotes and newlines. -/
theorem parseCSV_stringifyCSV_witness :
    (∀ r ∈ [[str "a,b", str "He said \"hi\"", str "line1\nline2"], [str "x"]],
      ∃ v ∈ r, cellNonBlank v = true)
    ∧ (∀ r ∈ [[str "a,b", str "He said \"hi\"", str "line1\nline2"], [str "x"]],
        ∀ v ∈ r, '\r' ∉ v)
    ∧ parseCSV (stringifyCSV
        [[str "a,b", str "He said \"hi\"", str "line1\nline2"], [str "x"]])
      = [[str "a,b", str "He said \"hi\"", str "line1\nline2"], [str "x"]] :=
  ⟨by decide, by decide,
    parseCSV_stringifyCSV _ (by decide) (by decide)⟩

/-! ## C1 and C2: the generic JSON import and the row-key invariant -/

/-- A table with a single column labelled "Name". -/
def importDemoTable : ProjectTable :=
  { id := str "t1", name := str "T", type := TableType.classic,
    columns := [{ id := str "c1", label := str "Name" }], rows := [],
    createdAt := 0, updatedAt := 0 }

/-- The generic-shape JSON document `{"name": "Alice"}`. -/
def importDemoJSON : JsonVal := JsonVal.jobj [(str "name", JsonVal.jstr (str "Alice"))]

/-- C1: importing `{"name": "Alice"}` into a table whose only column is
labelled "Name" does not land the value in that column.  The import keys the
row under the freshly generated column id `col_7_0`, then drops that column by
normalized-label dedup, so the table keeps its single column, the new row's
"Name" cell reads as empty, and the value "Alice" sits under a column id that
is not part of the table. -/
theorem genericImport_label_match_drops_value :
    handlePasteJSON importDemoTable importDemoJSON 7
      = some { importDemoTable with
          rows := [{ id := str "row_7_0", values := [(str "col_7_0", str "Alice")],
                     updatedAt := 7 }] }
    ∧ (handlePasteJSON importDemoTable importDemoJSON 7).map
        (fun t1 => t1.columns) = some [{ id := str "c1", label := str "Name" }]
    ∧ (handlePasteJSON importDemoTable importDemoJSON 7).map
        (fun t1 => t1.rows.map (fun r => lookupVal r.values (str "c1"))) = some [[]]
    ∧ (handlePasteJSON importDemoTable importDemoJSON 7).map
        (fun t1 => t1.rows.map (fun r => lookupVal r.values (str "col_7_0")))
      = some [str "Alice"] := by
  refine ⟨by decide, by decide, by decide, by decide⟩

/-- C2: the key-subset invariant fails on the generic JSON import — the
imported row's only key is the dropped fresh column id `col_7_0`, which is not
among the table's column ids — while column deletion does prune the deleted
column's key from every row in the same mutation. -/
theorem rowKeys_subset_violation_and_prune :
    (handlePasteJSON importDemoTable importDemoJSON 7).map
        (fun t1 => t1.rows.map (fun r => keysOf r.values)) = some [[str "col_7_0"]]
    ∧ (handlePasteJSON importDemoTable importDemoJSON 7).map
        (fun t1 => t1.columns.map Column.id) = some [str "c1"]
    ∧ ¬ (str "col_7_0") ∈ [str "c1"]
    ∧ (∀ (t : ProjectTable) (colId : Str) (r : DynamicRow),
        r ∈ (deleteColumnUpdater colId t).rows → ¬ colId ∈ keysOf r.values) := by
  refine ⟨by decide, by decide, by decide, ?_⟩
  intro t colId r hr
  unfold deleteColumnUpdater at hr
  simp only [List.mem_map] at hr
  obtain ⟨r0, _, hr0⟩ := hr
  rw [← hr0]
  exact keysOf_delVal r0.values colId

/-- Witness for the pruning half of C2 at a concrete table. -/
theorem rowKeys_subset_violation_and_prune_witness :
    ({ id := str "r1", values := [], updatedAt := 0 } : DynamicRow)
        ∈ (deleteColumnUpdater (str "c1")
            { importDemoTable with
              rows := [{ id := str "r1", values := [(str "c1", str "x")],
                         updatedAt := 0 }] }).rows
    ∧ ¬ (str "c1") ∈ keysOf ([] : Values) := by
  refine ⟨by decide, ?_⟩
  exact rowKeys_subset_violation_and_prune.2.2.2
    { importDemoTable with
      rows := [{ id := str "r1", values := [(str "c1", str "x")], updatedAt := 0 }] }
    (str "c1") { id := str "r1", values := [], updatedAt := 0 } (by decide)

end Rafoz
